import Mathlib

/-!
# Verification of the descubro artist-graph core

Shallow embedding of the graph-construction pipeline of the descubro
repository (main page `src/client/app/page.tsx`, plus the variants
`src/unnamed/part_000` and `src/unnamed/part_003` where the claims cite
them): record normalization and deduplication, strong/soft edge
classification, genre band positioning, the search/genre filter state
machine, and the hover/click highlight logic.

Strings model JavaScript strings; a raw-record string field that is
absent or empty is modelled as `""` (both are falsy for the `||` and `!`
checks the code performs). JavaScript numbers appearing in opacity,
radius and band arithmetic are modelled as rationals (all the constants
involved are exactly representable). JS `Set`/object insertion order is
modelled with lists keeping first occurrences.
-/

namespace Descubro

/-- JS `x || y` for string operands: the empty string is falsy. -/
def jsOr (a b : String) : String := if a = "" then b else a

/-- JS `s.toLowerCase()` (character-wise, as all genre data is ASCII). -/
def jsToLower (s : String) : String := ⟨s.data.map Char.toLower⟩

/-- JS `s.trim()`: strip whitespace from both ends. -/
def jsTrim (s : String) : String :=
  ⟨((s.data.dropWhile Char.isWhitespace).reverse.dropWhile Char.isWhitespace).reverse⟩

/-- JS `s1.includes(s2)` : substring containment. -/
def jsIncludes (s sub : String) : Bool := decide (sub.data <:+: s.data)

/-- Helper for `firstDedup`: drop elements already seen, keeping first
occurrences in order. -/
def firstDedupAux (seen : List String) : List String → List String
  | [] => []
  | a :: l =>
    if seen.contains a then firstDedupAux seen l
    else a :: firstDedupAux (seen ++ [a]) l

/-- Models `Array.from(new Set(l))` on strings: drop duplicates, keep the first
occurrence of each element, preserving order. -/
def firstDedup (l : List String) : List String := firstDedupAux [] l

/-! ## Raw upstream records (Bubble API objects), `page.tsx` §2 -/

/-- One raw record as consumed by the `artistsRaw.forEach` mapping in
`page.tsx`. String fields are `""` when absent; `genre_list_text` is
`none` when absent or not an array; `genre` is `none` when neither an
array nor a string. -/
structure RawRecord where
  artist_id_text : String := ""
  artist_id : String := ""
  spotify_id_text : String := ""
  spotify_id : String := ""
  bubbleId : String := ""
  name_text : String := ""
  name : String := ""
  artist_name : String := ""
  genre_list_text : Option (List String) := none
  genre : Option (List String ⊕ String) := none
  image_url_text : String := ""
  image_url : String := ""
deriving DecidableEq, Repr

/-- Embeds `a.artist_id_text || a.artist_id || a.spotify_id_text || a.spotify_id || a._id`. -/
def resolveId (r : RawRecord) : String :=
  jsOr r.artist_id_text (jsOr r.artist_id (jsOr r.spotify_id_text
    (jsOr r.spotify_id r.bubbleId)))

/-- Embeds `a.name_text || a.name || a.artist_name || "Unknown"`. -/
def recName (r : RawRecord) : String :=
  jsOr r.name_text (jsOr r.name (jsOr r.artist_name "Unknown"))

/-- The `Array.isArray(a.genre) ? a.genre : typeof a.genre === "string" ? [a.genre] : []` fallback. -/
def recGenreFallback (r : RawRecord) : List String :=
  match r.genre with
  | some (Sum.inl l) => l
  | some (Sum.inr s) => [s]
  | none => []

/-- Embeds `Array.isArray(a.genre_list_text) && a.genre_list_text.length ? a.genre_list_text : (fallback)`. -/
def recGenres (r : RawRecord) : List String :=
  match r.genre_list_text with
  | some l => if l.length ≠ 0 then l else recGenreFallback r
  | none => recGenreFallback r

/-- Turn a JS falsy-or-string value into an option (`x || y || null`). -/
def strOpt (s : String) : Option String := if s = "" then none else some s

/-- Embeds `a.image_url_text || a.image_url || null`. -/
def recImage (r : RawRecord) : Option String := strOpt (jsOr r.image_url_text r.image_url)

/-- Embeds `a.spotify_id_text || a.spotify_id || null`. -/
def recSpotify (r : RawRecord) : Option String := strOpt (jsOr r.spotify_id_text r.spotify_id)

/-! ## Normalized artists -/

/-- The `ArtistRecord` node type of `page.tsx` (simulation coordinates
omitted: they are owned by d3 and irrelevant to the claims). -/
structure ArtistRecord where
  id : String
  name : String
  genre : List String
  image : Option String
  spotify : Option String
deriving DecidableEq, Repr

/-- First insertion into `nodeById`. -/
def mkArtist (id : String) (r : RawRecord) : ArtistRecord :=
  { id := id, name := recName r, genre := recGenres r,
    image := recImage r, spotify := recSpotify r }

/-- The merge branch of `nodeById`: union genres (JS `Set`, first-seen
order), fill image/spotify only when missing, replace the name only when
the stored one is the `"Unknown"` default. -/
def mergeArtist (e : ArtistRecord) (r : RawRecord) : ArtistRecord :=
  { e with
    genre := firstDedup (e.genre ++ recGenres r)
    image := if e.image.isNone then recImage r else e.image
    spotify := if e.spotify.isNone then recSpotify r else e.spotify
    name := if e.name = "Unknown" ∧ recName r ≠ "Unknown" then recName r else e.name }

/-- Process one raw record against the accumulated `nodeById` table
(modelled as a list in insertion order, as `Object.values` preserves it
for these keys). Records without a resolvable id are dropped. -/
def upsert (acc : List ArtistRecord) (r : RawRecord) : List ArtistRecord :=
  let id := resolveId r
  if id = "" then acc
  else if acc.any (fun a => a.id = id) then
    acc.map (fun a => if a.id = id then mergeArtist a r else a)
  else acc ++ [mkArtist id r]

/-- The whole `artistsRaw.forEach` + `Object.values(nodeById)` phase. -/
def normalize (rs : List RawRecord) : List ArtistRecord := rs.foldl upsert []

/-! ## Edge classification (`page.tsx` §4, the double loop) -/

/-- A strong or soft link (`Link` of `page.tsx`, the static fields). -/
structure Link where
  sourceId : String
  targetId : String
  genre : String
  strength : Nat
deriving DecidableEq, Repr

/-- Lexicographic code-point comparison of character lists: JS `<` on
strings (all observed ids are BMP, where code-unit and code-point order
coincide). -/
def charListLt : List Char → List Char → Bool
  | _, [] => false
  | [], _ :: _ => true
  | a :: as, b :: bs =>
    if a.toNat < b.toNat then true
    else if b.toNat < a.toNat then false
    else charListLt as bs

/-- JS `a < b` on strings. -/
def jsStrLt (a b : String) : Bool := charListLt a.data b.data

/-- Embeds `const strongKey = (a, b) => a < b ? `a__b` : `b__a``. -/
def strongKey (a b : String) : String :=
  if jsStrLt a b then a ++ "__" ++ b else b ++ "__" ++ a

/-- Embeds `lowerGenres` from `page.tsx`. -/
def lowerGenres (l : List String) : List String := l.map jsToLower

/-- Computes `(g[0] ?? "unknown").toLowerCase()` applied to an already-lowercased
genre list, exactly as the loop computes `primary1` / `primary2`. -/
def pairPrimary (a : ArtistRecord) : String :=
  jsToLower ((lowerGenres a.genre).headD "unknown")

/-- Computes `overlap.length` for a pair, where `overlap = g1.filter(g => g2.includes(g))`. -/
def overlapCount (p : ArtistRecord × ArtistRecord) : Nat :=
  ((lowerGenres p.1.genre).filter (fun g => (lowerGenres p.2.genre).contains g)).length

/-- Mutable state of the link-building loop. -/
structure ClassifyState where
  links : List Link
  softLinks : List Link
  strongKeys : List String
deriving DecidableEq, Repr

/-- Body of the inner loop of `page.tsx` §4 for the pair `(a, b) = (nodes[i], nodes[j])`. -/
def stepPair (s : ClassifyState) (p : ArtistRecord × ArtistRecord) : ClassifyState :=
  let g1 := lowerGenres p.1.genre
  let g2 := lowerGenres p.2.genre
  if g1.length = 0 ∨ g2.length = 0 then s
  else
    let overlap := g1.filter (fun g => g2.contains g)
    if overlap.length = 0 then s
    else
      let key := strongKey p.1.id p.2.id
      let primary1 := pairPrimary p.1
      let primary2 := pairPrimary p.2
      if primary1 ≠ "" ∧ primary1 = primary2 then
        if s.strongKeys.contains key then s
        else { s with
          links := s.links ++ [⟨p.1.id, p.2.id, primary1, overlap.length⟩]
          strongKeys := s.strongKeys ++ [key] }
      else
        { s with softLinks :=
          s.softLinks ++ [⟨p.1.id, p.2.id, "soft-related", overlap.length⟩] }

/-- All index pairs `i < j` of the node list, in loop order. -/
def allPairs : List ArtistRecord → List (ArtistRecord × ArtistRecord)
  | [] => []
  | a :: rest => rest.map (fun b => (a, b)) ++ allPairs rest

/-- The full link-building double loop of `page.tsx`. -/
def classify (nodes : List ArtistRecord) : ClassifyState :=
  (allPairs nodes).foldl stepPair ⟨[], [], []⟩

/-! ## Genre palette and cluster positioning (`page.tsx` §3) -/

/-- Computes `(n.genre[0] ?? "unknown").toLowerCase()`. -/
def primaryGenre (a : ArtistRecord) : String := jsToLower (a.genre.headD "unknown")

/-- Embeds `Array.from(new Set(nodes.map(primary)))`: distinct lowercased primary
genres in first-encountered order. -/
def uniqueGenres (nodes : List ArtistRecord) : List String :=
  firstDedup (nodes.map primaryGenre)

/-- Embeds `const bandStep = width / (uniqueGenres.length + 1)`. -/
def bandStep (width : ℚ) (nodes : List ArtistRecord) : ℚ :=
  width / ((uniqueGenres nodes).length + 1)

/-- The `genreCenterX` table: genre at index `i` of `uniqueGenres` is
assigned `bandStep * (i + 1)`; genres not in the table have no entry. -/
def genreCenterX (width : ℚ) (nodes : List ArtistRecord) (g : String) : Option ℚ :=
  ((uniqueGenres nodes).enum.find? (fun p => p.2 = g)).map
    (fun p => bandStep width nodes * ((p.1 : ℚ) + 1))

/-! ## Search & genre filter (`page.tsx` EFFECT 2) -/

/-- The process-local filter state: search box text and the legend's
active genre (already lowercased by the legend click handler, but the
effect lowercases it again defensively). -/
structure FilterState where
  searchTerm : String
  activeGenre : Option String
deriving DecidableEq, Repr

/-- The per-node visibility predicate of EFFECT 2. The genre filter
mirrors `activeGenre ? activeGenre.toLowerCase() : null`: JS truthiness
makes both a `null` and an empty-string `activeGenre` disable the
filter. -/
def nodeVisible (fs : FilterState) (d : ArtistRecord) : Bool :=
  let term := jsToLower (jsTrim fs.searchTerm)
  let genreFilter :=
    match fs.activeGenre with
    | some ag => if ag = "" then none else some (jsToLower ag)
    | none => none
  let matchesName := jsIncludes (jsToLower d.name) term
  let matchesGenreText := d.genre.any (fun g => jsIncludes (jsToLower g) term)
  let matchesSearch := term = "" || matchesName || matchesGenreText
  let matchesLegend :=
    match genreFilter with
    | none => true
    | some gf => primaryGenre d = gf
  matchesSearch && matchesLegend

/-- Node opacity assigned by EFFECT 2: `visible ? 1 : 0.15`. -/
def nodeOpacity (fs : FilterState) (d : ArtistRecord) : ℚ :=
  if nodeVisible fs d then 1 else 0.15

/-- The `visibleIds` set collected while setting node opacities. -/
def visibleIds (fs : FilterState) (nodes : List ArtistRecord) : List String :=
  (nodes.filter (nodeVisible fs)).map (fun a => a.id)

/-- Strong-link opacity: `both endpoints visible ? 0.9 : 0.05`. -/
def strongLinkOpacity (fs : FilterState) (nodes : List ArtistRecord) (l : Link) : ℚ :=
  if l.sourceId ∈ visibleIds fs nodes ∧ l.targetId ∈ visibleIds fs nodes then 0.9 else 0.05

/-- Soft-link opacity: `both endpoints visible ? 0.5 : 0.05`. -/
def softLinkOpacity (fs : FilterState) (nodes : List ArtistRecord) (l : Link) : ℚ :=
  if l.sourceId ∈ visibleIds fs nodes ∧ l.targetId ∈ visibleIds fs nodes then 0.5 else 0.05

/-! ## Hover behaviour of the main page (`page.tsx` §12) -/

/-- Embeds `const NODE_RADIUS = 20`. -/
def NODE_RADIUS : ℚ := 20

/-- Radius of node `d` while `hovered` is the id of the circle currently
under the pointer (`mouseover` enlarges only `this`; `mouseout` restores
`NODE_RADIUS`). -/
def hoverRadius (hovered : Option String) (d : ArtistRecord) : ℚ :=
  match hovered with
  | some h => if d.id = h then NODE_RADIUS * 1.3 else NODE_RADIUS
  | none => NODE_RADIUS

/-! ## Click-highlight logic of the `part_000` variant -/

/-- The `ArtistLink` of `part_000` (endpoints as ids). -/
structure ArtistLink where
  source : String
  target : String
  strength : Nat
  genre : String
deriving DecidableEq, Repr

/-- Embeds `const baseRadius = 240` of `part_000`. -/
def baseRadius : ℚ := 240

/-- Embeds `const highlightScale = 1.1` of `part_000`. -/
def highlightScale : ℚ := 1.1

/-- The `connectedIds` set accumulated by `highlightNode` in `part_000`. -/
def connectedIds (links : List ArtistLink) (sel : String) : List String :=
  links.foldl
    (fun acc l =>
      if l.source = sel ∨ l.target = sel then acc ++ [l.source, l.target] else acc)
    []

/-- Node radius applied by `highlightNode`. -/
def highlightRadius (links : List ArtistLink) (sel : String) (d : String) : ℚ :=
  if d = sel ∨ d ∈ connectedIds links sel then baseRadius * highlightScale else baseRadius

/-- Node opacity applied by `highlightNode`. -/
def highlightOpacity (links : List ArtistLink) (sel : String) (d : String) : ℚ :=
  if d = sel ∨ d ∈ connectedIds links sel then 1 else 0.5

/-- Link opacity applied by `highlightNode`. -/
def highlightLinkOpacity (sel : String) (l : ArtistLink) : ℚ :=
  if l.source = sel ∨ l.target = sel then 1 else 0.2

/-- Embeds the `resetHighlight` values of `part_000` (radius, node opacity, link opacity). -/
def resetHighlight : ℚ × ℚ × ℚ := (baseRadius, 1, 0.7)

/-! ## Fetch outcome handling (`page.tsx` EFFECT 1, steps 1-4) -/

/-- Outcome of the artist fetch: a thrown network error, a non-success
HTTP status (`!res.ok`), or a parsed body whose `response?.results` may
be absent. -/
inductive FetchOutcome where
  | netError : FetchOutcome
  | httpError : Nat → FetchOutcome
  | success : Option (List RawRecord) → FetchOutcome
deriving DecidableEq, Repr

/-- The build attempt of EFFECT 1: early-returns (`none`) on fetch
failure and on an empty record list, otherwise normalizes and
classifies. -/
def buildGraph : FetchOutcome → Option (List ArtistRecord × List Link × List Link) :=
  fun o =>
    match o with
    | .netError => none
    | .httpError _ => none
    | .success body =>
      let artistsRaw := body.getD []
      if artistsRaw.length = 0 then none
      else
        let nodes := normalize artistsRaw
        let st := classify nodes
        some (nodes, st.links, st.softLinks)

/-! ## Keyword overlap of the `part_003` variant -/

/-- Whitespace tokenization: JS `s.split(/\s+/).filter(Boolean)`. -/
def wsTokens (s : String) : List String :=
  go s.data []
where
  /-- Walk the characters, accumulating the current token reversed. -/
  go : List Char → List Char → List String
    | [], cur => if cur.isEmpty then [] else [⟨cur.reverse⟩]
    | c :: rest, cur =>
      if c.isWhitespace then
        if cur.isEmpty then go rest [] else ⟨cur.reverse⟩ :: go rest []
      else go rest (c :: cur)

/-- Embeds `hasKeywordOverlap` from `part_003`: do the lowercased whitespace
token sets of two genre strings intersect? -/
def hasKeywordOverlap (g1 g2 : String) : Bool :=
  let a := wsTokens (jsToLower g1)
  let b := wsTokens (jsToLower g2)
  a.any (fun word => b.contains word)

/-! ## Specification-side helper definitions

These are used in theorem statements to characterize the source
functions above; they are not part of the embedded program. -/

/-- The unordered endpoint pair of two ids, ordered by JS `<` (the same
ordering `strongKey` uses, without the string concatenation). -/
def sortPair (a b : String) : String × String :=
  if jsStrLt a b then (a, b) else (b, a)

/-- Unordered endpoint pair of a link. -/
def linkPair (l : Link) : String × String := sortPair l.sourceId l.targetId

/-- Computes `strongKey` of a link's endpoints. -/
def linkKey (l : Link) : String := strongKey l.sourceId l.targetId

/-- Computes `strongKey` of a candidate pair. -/
def pairKey (p : ArtistRecord × ArtistRecord) : String := strongKey p.1.id p.2.id

/-- Unordered id pair of a candidate pair. -/
def pairIds (p : ArtistRecord × ArtistRecord) : String × String := sortPair p.1.id p.2.id

/-- The strong link the loop body would emit for a pair, `none` when the
pair does not qualify (mirrors the branch structure of `stepPair`,
ignoring the dedupe-key check). -/
def strongOf (p : ArtistRecord × ArtistRecord) : Option Link :=
  let g1 := lowerGenres p.1.genre
  let g2 := lowerGenres p.2.genre
  if g1.length = 0 ∨ g2.length = 0 then none
  else
    let overlap := g1.filter (fun g => g2.contains g)
    if overlap.length = 0 then none
    else if pairPrimary p.1 ≠ "" ∧ pairPrimary p.1 = pairPrimary p.2 then
      some ⟨p.1.id, p.2.id, pairPrimary p.1, overlap.length⟩
    else none

/-- The soft link the loop body would emit for a pair, `none` when the
pair does not qualify. -/
def softOf (p : ArtistRecord × ArtistRecord) : Option Link :=
  let g1 := lowerGenres p.1.genre
  let g2 := lowerGenres p.2.genre
  if g1.length = 0 ∨ g2.length = 0 then none
  else
    let overlap := g1.filter (fun g => g2.contains g)
    if overlap.length = 0 then none
    else if pairPrimary p.1 ≠ "" ∧ pairPrimary p.1 = pairPrimary p.2 then none
    else some ⟨p.1.id, p.2.id, "soft-related", overlap.length⟩

/-- The raw records that resolve to a given id, in input order. -/
def recordsFor (rs : List RawRecord) (x : String) : List RawRecord :=
  rs.filter (fun r => resolveId r = x)

/-- First name that is not the `"Unknown"` default, else `"Unknown"`. -/
def firstNonUnknown (l : List String) : String :=
  (l.find? (fun n => n ≠ "Unknown")).getD "Unknown"

/-- First present optional value, else `none`. -/
def firstSome (l : List (Option String)) : Option String := (l.filterMap id).head?

/-- The artist the normalizer should produce for id `x` from its
colliding records: the first record is inserted verbatim, the rest are
merged in order. -/
def normSpec (x : String) : List RawRecord → Option ArtistRecord
  | [] => none
  | r :: rest => some (rest.foldl mergeArtist (mkArtist x r))

/-! ## Concrete inputs for counterexamples and witnesses -/

/-- Three artists sharing primary genre `"house"`. -/
def trioHouse : List ArtistRecord :=
  [⟨"a", "Ana", ["house"], none, none⟩,
   ⟨"b", "Bob", ["house"], none, none⟩,
   ⟨"c", "Cal", ["house"], none, none⟩]

/-- Two artists with primary genres `"deep house"` and `"tech house"`. -/
def duoHouse : List ArtistRecord :=
  [⟨"a", "Ana", ["deep house"], none, none⟩,
   ⟨"b", "Bob", ["tech house"], none, none⟩]

/-- A record giving artist `X` primary genre `"house"`. -/
def recXHouse : RawRecord := { artist_id := "X", genre_list_text := some ["house"] }

/-- A record giving artist `X` primary genre `"techno"`. -/
def recXTechno : RawRecord := { artist_id := "X", genre_list_text := some ["techno"] }

/-- A record giving artist `Y` primary genre `"house"`. -/
def recYHouse : RawRecord := { artist_id := "Y", genre_list_text := some ["house"] }

/-- Two colliding records for `X` (with merge-relevant fields) plus one for `Y`. -/
def mergeRecs : List RawRecord :=
  [{ artist_id := "X", genre_list_text := some ["house", "club"],
     image_url := "img1", name := "Unknown" },
   { artist_id := "X", genre_list_text := some ["club", "techno"],
     spotify_id := "spX", name := "Xavier" },
   { artist_id := "Y", genre_list_text := some ["house"], name := "Yve" }]

/-- Three artists with three distinct primary genres, for the band test. -/
def trioGenres : List ArtistRecord :=
  [⟨"a", "Ana", ["House"], none, none⟩,
   ⟨"b", "Bob", ["techno"], none, none⟩,
   ⟨"c", "Cal", ["jazz"], none, none⟩]

/-- Two `"unknown"`-primary artists (empty genre lists) plus two house artists. -/
def quadUnknown : List ArtistRecord :=
  [⟨"u1", "Una", [], none, none⟩,
   ⟨"u2", "Ugo", [], none, none⟩,
   ⟨"h1", "Hal", ["house"], none, none⟩,
   ⟨"h2", "Hel", ["house"], none, none⟩]

/-- A single link list for the highlight witness. -/
def chainAB : List ArtistLink := [⟨"a", "b", 1, "house"⟩]

/-! ## Supporting lemmas -/

theorem mem_firstDedupAux (l : List String) : ∀ (seen : List String) (x : String),
    x ∈ firstDedupAux seen l ↔ x ∈ l ∧ x ∉ seen := by
  induction l with
  | nil => intro seen x; simp [firstDedupAux]
  | cons a l ih =>
    intro seen x
    simp only [firstDedupAux]
    split
    · next hcont =>
      have ha : a ∈ seen := by simpa using hcont
      rw [ih]
      simp only [List.mem_cons]
      constructor
      · rintro ⟨hx, hns⟩; exact ⟨Or.inr hx, hns⟩
      · rintro ⟨hx | hx, hns⟩
        · exact absurd (hx ▸ ha) hns
        · exact ⟨hx, hns⟩
    · next hcont =>
      have ha : a ∉ seen := by simpa using hcont
      simp only [List.mem_cons, ih, List.mem_append, List.mem_singleton]
      by_cases hxa : x = a
      · subst hxa; simp [ha]
      · simp only [hxa, false_or, or_false]
        tauto

theorem mem_firstDedup (l : List String) (x : String) :
    x ∈ firstDedup l ↔ x ∈ l := by
  rw [firstDedup, mem_firstDedupAux]
  simp

theorem nodup_firstDedupAux (l : List String) : ∀ seen, (firstDedupAux seen l).Nodup := by
  induction l with
  | nil => intro seen; simp [firstDedupAux]
  | cons a l ih =>
    intro seen
    simp only [firstDedupAux]
    split
    · exact ih seen
    · refine List.nodup_cons.mpr ⟨fun hmem => ?_, ih _⟩
      rw [mem_firstDedupAux] at hmem
      exact hmem.2 (by simp)

theorem nodup_firstDedup (l : List String) : (firstDedup l).Nodup :=
  nodup_firstDedupAux l []

theorem enumFrom_find_of_nodup (l : List String) (hl : l.Nodup) :
    ∀ (n i : Nat) (h : i < l.length),
      (l.enumFrom n).find? (fun p => p.2 = l.get ⟨i, h⟩) =
        some (n + i, l.get ⟨i, h⟩) := by
  induction l with
  | nil => intro n i h; simp at h
  | cons a l ih =>
    intro n i h
    rcases i with _ | j
    · simp [List.enumFrom_cons]
    · have hj : j < l.length := by simpa using Nat.lt_of_succ_lt_succ h
      have ha : a ∉ l := (List.nodup_cons.mp hl).1
      have hne : ¬(a = l.get ⟨j, hj⟩) := fun he => ha (he ▸ l.get_mem j hj)
      have hget : (a :: l).get ⟨j + 1, h⟩ = l.get ⟨j, hj⟩ := rfl
      rw [hget]
      simp only [List.enumFrom_cons, List.find?_cons]
      have hd : (decide (a = l.get ⟨j, hj⟩)) = false := by
        simpa using hne
      simp only [hd]
      rw [ih (List.nodup_cons.mp hl).2 (n + 1) j hj]
      congr 1
      simp
      omega

/-! ## Claim C9 — fetch failure or empty data aborts the build -/

/-- Claim C9: on a network error, a non-success HTTP status, a missing
`response.results` field or an empty record list, the build attempt
produces no graph at all (`none`: no nodes, no edges, nothing to apply
to the view), and only on a non-empty record list does it build; the
build function is total, so no exception propagates. -/
theorem c9_fetch_failure_aborts (o : FetchOutcome) :
    buildGraph o = none ↔
      o = FetchOutcome.netError ∨ (∃ s, o = FetchOutcome.httpError s) ∨
      o = FetchOutcome.success none ∨ o = FetchOutcome.success (some []) := by
  cases o with
  | netError => simp [buildGraph]
  | httpError s => simp [buildGraph]
  | success body =>
    cases body with
    | none => simp [buildGraph]
    | some l =>
      cases l with
      | nil => simp [buildGraph]
      | cons r rs => simp [buildGraph]

/-! ## Claim C5 — deterministic genre cluster bands -/

/-- Claim C5: with `k` distinct lowercased primary genres taken in
first-encountered order, the genre at index `i` is assigned the target
x-coordinate `W / (k + 1) * (i + 1)`. -/
theorem c5_cluster_bands (nodes : List ArtistRecord) (W : ℚ) (i : Nat)
    (h : i < (uniqueGenres nodes).length) :
    genreCenterX W nodes ((uniqueGenres nodes).get ⟨i, h⟩) =
      some (W / (((uniqueGenres nodes).length : ℚ) + 1) * ((i : ℚ) + 1)) := by
  have hn : (uniqueGenres nodes).Nodup := nodup_firstDedup _
  unfold genreCenterX bandStep
  have he := enumFrom_find_of_nodup (uniqueGenres nodes) hn 0 i h
  rw [List.enum, he]
  simp

/-- Witness for C5 at `k = 3`, `W = 1200`: the third genre band sits at
`x = 900` (and symmetrically `300`, `600` for the first two). -/
theorem c5_cluster_bands_witness :
    2 < (uniqueGenres trioGenres).length ∧
    (uniqueGenres trioGenres).length = 3 ∧
    genreCenterX 1200 trioGenres "house" = some 300 ∧
    genreCenterX 1200 trioGenres "techno" = some 600 ∧
    genreCenterX 1200 trioGenres "jazz" = some 900 := by
  have hlen : (uniqueGenres trioGenres).length = 3 := by decide
  refine ⟨by decide, hlen, ?_, ?_, ?_⟩
  · have h := c5_cluster_bands trioGenres 1200 0 (by decide)
    have hg : (uniqueGenres trioGenres).get ⟨0, by decide⟩ = "house" := by decide
    rw [hg] at h
    rw [h]
    norm_num [hlen]
  · have h := c5_cluster_bands trioGenres 1200 1 (by decide)
    have hg : (uniqueGenres trioGenres).get ⟨1, by decide⟩ = "techno" := by decide
    rw [hg] at h
    rw [h]
    norm_num [hlen]
  · have h := c5_cluster_bands trioGenres 1200 2 (by decide)
    have hg : (uniqueGenres trioGenres).get ⟨2, by decide⟩ = "jazz" := by decide
    rw [hg] at h
    rw [h]
    norm_num [hlen]

/-! ## Claim C6 — search & genre filter visibility -/

theorem nodeVisible_iff (fs : FilterState) (d : ArtistRecord) :
    nodeVisible fs d = true ↔
      ((jsToLower (jsTrim fs.searchTerm) = "" ∨
        (jsToLower (jsTrim fs.searchTerm)).data <:+: (jsToLower d.name).data ∨
        ∃ g ∈ d.genre, (jsToLower (jsTrim fs.searchTerm)).data <:+: (jsToLower g).data) ∧
       (fs.activeGenre = none ∨ fs.activeGenre = some "" ∨
        ∃ ag, fs.activeGenre = some ag ∧ ag ≠ "" ∧ primaryGenre d = jsToLower ag)) := by
  cases hag : fs.activeGenre with
  | none =>
    simp only [nodeVisible, hag, jsIncludes, List.any_eq_true,
      Bool.or_eq_true, Bool.and_eq_true, decide_eq_true_eq]
    tauto
  | some ag =>
    by_cases hag2 : ag = ""
    · subst hag2
      simp [nodeVisible, hag, jsIncludes, List.any_eq_true]
      tauto
    · simp [nodeVisible, hag, hag2, jsIncludes, List.any_eq_true]
      tauto

theorem nodeOpacity_eq_one_iff (fs : FilterState) (d : ArtistRecord) :
    nodeOpacity fs d = 1 ↔ nodeVisible fs d = true := by
  unfold nodeOpacity
  split
  · next hv => simp [hv]
  · next hv =>
    simp only [hv, iff_false]
    norm_num

theorem mem_visibleIds (fs : FilterState) (nodes : List ArtistRecord) (x : String) :
    x ∈ visibleIds fs nodes ↔ ∃ a ∈ nodes, nodeVisible fs a = true ∧ a.id = x := by
  simp only [visibleIds, List.mem_map, List.mem_filter]
  constructor
  · rintro ⟨a, ⟨ha, hv⟩, rfl⟩; exact ⟨a, ha, hv, rfl⟩
  · rintro ⟨a, ha, hv, rfl⟩; exact ⟨a, ⟨ha, hv⟩, rfl⟩

/-- Claim C6: a node renders at full opacity `1` exactly when (the trimmed,
lowercased search term is empty, or the name or some genre contains it
as a case-insensitive substring) and (no genre filter is active, or the
lowercased primary genre equals the active genre); otherwise it renders
dimmed at `0.15`, never removed (opacity stays positive); an active
genre that is the empty string is falsy in JS and disables the genre
filter exactly like `null`. An edge
renders at its full opacity (`0.9` strong, `0.5` soft) exactly when both
endpoint ids belong to visible nodes, and otherwise at the near-zero
background opacity `0.05`. -/
theorem c6_filter_visibility (fs : FilterState) (nodes : List ArtistRecord)
    (d : ArtistRecord) (l : Link) :
    (nodeOpacity fs d = 1 ↔
      ((jsToLower (jsTrim fs.searchTerm) = "" ∨
        (jsToLower (jsTrim fs.searchTerm)).data <:+: (jsToLower d.name).data ∨
        ∃ g ∈ d.genre, (jsToLower (jsTrim fs.searchTerm)).data <:+: (jsToLower g).data) ∧
       (fs.activeGenre = none ∨ fs.activeGenre = some "" ∨
        ∃ ag, fs.activeGenre = some ag ∧ ag ≠ "" ∧ primaryGenre d = jsToLower ag))) ∧
    (nodeOpacity fs d = 1 ∨ nodeOpacity fs d = 0.15) ∧
    (0 < nodeOpacity fs d) ∧
    (strongLinkOpacity fs nodes l = 0.9 ↔
      ((∃ a ∈ nodes, nodeVisible fs a = true ∧ a.id = l.sourceId) ∧
       (∃ b ∈ nodes, nodeVisible fs b = true ∧ b.id = l.targetId))) ∧
    (strongLinkOpacity fs nodes l = 0.9 ∨ strongLinkOpacity fs nodes l = 0.05) ∧
    (softLinkOpacity fs nodes l = 0.5 ↔
      ((∃ a ∈ nodes, nodeVisible fs a = true ∧ a.id = l.sourceId) ∧
       (∃ b ∈ nodes, nodeVisible fs b = true ∧ b.id = l.targetId))) ∧
    (softLinkOpacity fs nodes l = 0.5 ∨ softLinkOpacity fs nodes l = 0.05) := by
  refine ⟨(nodeOpacity_eq_one_iff fs d).trans (nodeVisible_iff fs d), ?_, ?_, ?_, ?_, ?_, ?_⟩
  · unfold nodeOpacity; split
    · exact Or.inl rfl
    · exact Or.inr rfl
  · unfold nodeOpacity; split
    · norm_num
    · norm_num
  · unfold strongLinkOpacity
    rw [← mem_visibleIds fs nodes l.sourceId, ← mem_visibleIds fs nodes l.targetId]
    split
    · next hv => simp [hv]
    · next hv =>
      simp only [hv, iff_false]
      norm_num
  · unfold strongLinkOpacity; split
    · exact Or.inl rfl
    · exact Or.inr rfl
  · unfold softLinkOpacity
    rw [← mem_visibleIds fs nodes l.sourceId, ← mem_visibleIds fs nodes l.targetId]
    split
    · next hv => simp [hv]
    · next hv =>
      simp only [hv, iff_false]
      norm_num
  · unfold softLinkOpacity; split
    · exact Or.inl rfl
    · exact Or.inr rfl

/-! ## Claim C8 — hover/click emphasis -/

theorem mem_connectedIds (sel x : String) (links : List ArtistLink) :
    x ∈ connectedIds links sel ↔
      ∃ e ∈ links, (e.source = sel ∨ e.target = sel) ∧ (x = e.source ∨ x = e.target) := by
  have aux : ∀ (ls : List ArtistLink) (acc : List String),
      x ∈ ls.foldl
        (fun acc l =>
          if l.source = sel ∨ l.target = sel then acc ++ [l.source, l.target] else acc)
        acc ↔
      x ∈ acc ∨
        ∃ e ∈ ls, (e.source = sel ∨ e.target = sel) ∧ (x = e.source ∨ x = e.target) := by
    intro ls
    induction ls with
    | nil => intro acc; simp
    | cons e ls ih =>
      intro acc
      rw [List.foldl_cons]
      by_cases he : e.source = sel ∨ e.target = sel
      · rw [if_pos he, ih]
        simp only [List.mem_append, List.mem_cons, List.mem_singleton,
          List.not_mem_nil, or_false]
        constructor
        · rintro (⟨h | h | h⟩ | ⟨f, hf, hc, hx⟩)
          · exact Or.inl h
          · exact Or.inr ⟨e, Or.inl rfl, he, Or.inl h⟩
          · exact Or.inr ⟨e, Or.inl rfl, he, Or.inr h⟩
          · exact Or.inr ⟨f, Or.inr hf, hc, hx⟩
        · rintro (h | ⟨f, rfl | hf, hc, hx⟩)
          · exact Or.inl (Or.inl h)
          · rcases hx with h | h
            · exact Or.inl (Or.inr (Or.inl h))
            · exact Or.inl (Or.inr (Or.inr h))
          · exact Or.inr ⟨f, hf, hc, hx⟩
      · rw [if_neg he, ih]
        simp only [List.mem_cons]
        constructor
        · rintro (h | ⟨f, hf, hc, hx⟩)
          · exact Or.inl h
          · exact Or.inr ⟨f, Or.inr hf, hc, hx⟩
        · rintro (h | ⟨f, rfl | hf, hc, hx⟩)
          · exact Or.inl h
          · exact absurd hc he
          · exact Or.inr ⟨f, hf, hc, hx⟩
  have := aux links []
  simpa [connectedIds] using this

/-- Claim C8, counterexample: in the main page, the two house artists `"a"`
and `"b"` are joined by a strong edge, so `"b"` is a direct neighbor of
`"a"`; yet while `"a"` is hovered, `"b"` renders at the plain
`NODE_RADIUS`, strictly below the emphasized radius — neighbors are not
emphasized on hover, contradicting the claim. -/
theorem c8_hover_counterexample :
    (classify (trioHouse.take 2)).links.map linkPair = [("a", "b")] ∧
    hoverRadius (some "a") ⟨"b", "Bob", ["house"], none, none⟩ = NODE_RADIUS ∧
    NODE_RADIUS < NODE_RADIUS * 1.3 := by
  refine ⟨by decide, by decide, ?_⟩
  rw [NODE_RADIUS]
  norm_num

/-- Claim C8, amended: in the main page, hovering enlarges only the hovered
node itself (radius `NODE_RADIUS * 1.3`), with no neighbor emphasis and
no dimming, and mouseout restores `NODE_RADIUS`. Click-driven neighbor
emphasis exists only in the `part_000` variant: clicking `sel` gives the
selected node and every node sharing a link with it radius
`baseRadius * highlightScale` and opacity `1`, every other node opacity
`0.5`, every link incident to `sel` opacity `1` and every other link
opacity `0.2`; the reset state is radius `baseRadius`, node opacity `1`,
link opacity `0.7`. -/
theorem c8_hover_and_click_highlight (hov : String) (dm : ArtistRecord)
    (links : List ArtistLink) (sel : String) (d : String) (l : ArtistLink) :
    (hoverRadius (some hov) dm = NODE_RADIUS * 1.3 ↔ dm.id = hov) ∧
    (hoverRadius (some hov) dm = NODE_RADIUS * 1.3 ∨ hoverRadius (some hov) dm = NODE_RADIUS) ∧
    (hoverRadius none dm = NODE_RADIUS) ∧
    (highlightRadius links sel d = baseRadius * highlightScale ↔
      (d = sel ∨ ∃ e ∈ links, (e.source = sel ∨ e.target = sel) ∧ (d = e.source ∨ d = e.target))) ∧
    (highlightRadius links sel d = baseRadius * highlightScale ∨
      highlightRadius links sel d = baseRadius) ∧
    (highlightOpacity links sel d = 1 ↔
      (d = sel ∨ ∃ e ∈ links, (e.source = sel ∨ e.target = sel) ∧ (d = e.source ∨ d = e.target))) ∧
    (highlightOpacity links sel d = 1 ∨ highlightOpacity links sel d = 0.5) ∧
    (highlightLinkOpacity sel l = 1 ↔ (l.source = sel ∨ l.target = sel)) ∧
    (highlightLinkOpacity sel l = 1 ∨ highlightLinkOpacity sel l = 0.2) ∧
    resetHighlight = (baseRadius, 1, 0.7) := by
  refine ⟨?_, ?_, rfl, ?_, ?_, ?_, ?_, ?_, ?_, rfl⟩
  · by_cases h : dm.id = hov
    · simp [hoverRadius, h]
    · simp only [hoverRadius, h, if_false, iff_false, if_neg h]
      rw [NODE_RADIUS]
      norm_num
  · by_cases h : dm.id = hov
    · exact Or.inl (by simp [hoverRadius, h])
    · exact Or.inr (by simp [hoverRadius, h])
  · unfold highlightRadius
    rw [← mem_connectedIds sel d links]
    split
    · next hv => simp [hv]
    · next hv =>
      simp only [hv, iff_false]
      rw [baseRadius, highlightScale]
      norm_num
  · unfold highlightRadius
    split
    · exact Or.inl rfl
    · exact Or.inr rfl
  · unfold highlightOpacity
    rw [← mem_connectedIds sel d links]
    split
    · next hv => simp [hv]
    · next hv =>
      simp only [hv, iff_false]
      norm_num
  · unfold highlightOpacity
    split
    · exact Or.inl rfl
    · exact Or.inr rfl
  · unfold highlightLinkOpacity
    split
    · next hv => simp [hv]
    · next hv =>
      simp only [hv, iff_false]
      norm_num
  · unfold highlightLinkOpacity
    split
    · exact Or.inl rfl
    · exact Or.inr rfl

/-! ## Classifier fold lemmas -/

theorem lowerGenres_len_zero (g : List String) :
    (lowerGenres g).length = 0 ↔ g = [] := by
  simp [lowerGenres]

theorem classifyFrom_soft :
    ∀ (ps : List (ArtistRecord × ArtistRecord)) (s : ClassifyState),
      (ps.foldl stepPair s).softLinks = s.softLinks ++ ps.filterMap softOf := by
  intro ps
  induction ps with
  | nil => intro s; simp
  | cons p ps ih =>
    intro s
    rw [List.foldl_cons, ih, List.filterMap_cons]
    unfold stepPair softOf
    dsimp only
    split_ifs with h1 h2 h3 h4
    · simp
    · simp
    · simp
    · simp
    · simp

/-- The soft links of the main page classifier are exactly the qualifying
pairs, in loop order, with no dedupe interference. -/
theorem classify_soft (nodes : List ArtistRecord) :
    (classify nodes).softLinks = (allPairs nodes).filterMap softOf := by
  have h := classifyFrom_soft (allPairs nodes) ⟨[], [], []⟩
  simpa [classify] using h

theorem softOf_eq_some_iff (p : ArtistRecord × ArtistRecord) (l : Link) :
    softOf p = some l ↔
      (p.1.genre ≠ [] ∧ p.2.genre ≠ [] ∧
       (∃ g, g ∈ lowerGenres p.1.genre ∧ g ∈ lowerGenres p.2.genre) ∧
       ¬(pairPrimary p.1 ≠ "" ∧ pairPrimary p.1 = pairPrimary p.2) ∧
       l = ⟨p.1.id, p.2.id, "soft-related", overlapCount p⟩) := by
  unfold softOf overlapCount
  dsimp only
  split_ifs with h1 h2 h3
  · constructor
    · intro h; exact absurd h (by simp)
    · rintro ⟨hg1, hg2, _, _, _⟩
      rcases h1 with h | h
      · exact hg1 ((lowerGenres_len_zero _).mp h)
      · exact hg2 ((lowerGenres_len_zero _).mp h)
  · constructor
    · intro h; exact absurd h (by simp)
    · rintro ⟨hg1, hg2, ⟨g, hga, hgb⟩, _, _⟩
      have hnil := List.length_eq_zero.mp h2
      rw [List.filter_eq_nil_iff] at hnil
      have hthis := hnil g hga
      exact hthis (by simpa using hgb)
  · constructor
    · intro h; exact absurd h (by simp)
    · rintro ⟨_, _, _, hnp, _⟩; exact absurd h3 hnp
  · constructor
    · intro h
      injection h with h
      subst h
      push_neg at h1
      refine ⟨?_, ?_, ?_, h3, rfl⟩
      · exact fun he => h1.1 ((lowerGenres_len_zero _).mpr he)
      · exact fun he => h1.2 ((lowerGenres_len_zero _).mpr he)
      · have hne : ((lowerGenres p.1.genre).filter
            (fun g => (lowerGenres p.2.genre).contains g)) ≠ [] := by
          intro hnil
          exact h2 (by rw [hnil]; rfl)
        rcases List.exists_mem_of_ne_nil _ hne with ⟨g, hg⟩
        have hg' := List.mem_filter.mp hg
        refine ⟨g, hg'.1, ?_⟩
        have := hg'.2
        simpa using this
    · rintro ⟨_, _, _, _, rfl⟩; rfl

/-! ## Claim C2 — soft edges and the keyword rule -/

/-- Claim C2, counterexample: `"deep house"` and `"tech house"` do share the
whitespace token `"house"` (`hasKeywordOverlap`, the `part_003` rule,
agrees), and the two primaries differ, yet the main page classifier
produces no soft edge — in fact no edge at all — for the pair, because
its soft rule tests overlap of the full genre lists, not keyword overlap
of the primary genres. -/
theorem c2_keyword_counterexample :
    hasKeywordOverlap "deep house" "tech house" = true ∧
    pairPrimary ⟨"a", "Ana", ["deep house"], none, none⟩ ≠
      pairPrimary ⟨"b", "Bob", ["tech house"], none, none⟩ ∧
    (classify duoHouse).softLinks = [] ∧
    (classify duoHouse).links = [] := by
  exact ⟨by decide, by decide, by decide, by decide⟩

/-- Claim C2, amended: in the main page classifier, an unordered pair gets a
soft edge iff both genre lists are non-empty, the lowercased genre lists
intersect (as full strings, not keyword tokens), and the pair does not
satisfy the strong rule (equal non-empty lowercased primary genres);
keyword tokenization plays no role. -/
theorem c2_soft_links_characterization (nodes : List ArtistRecord) (l : Link) :
    l ∈ (classify nodes).softLinks ↔
      ∃ p ∈ allPairs nodes,
        p.1.genre ≠ [] ∧ p.2.genre ≠ [] ∧
        (∃ g, g ∈ lowerGenres p.1.genre ∧ g ∈ lowerGenres p.2.genre) ∧
        ¬(pairPrimary p.1 ≠ "" ∧ pairPrimary p.1 = pairPrimary p.2) ∧
        l = ⟨p.1.id, p.2.id, "soft-related", overlapCount p⟩ := by
  rw [classify_soft, List.mem_filterMap]
  constructor
  · rintro ⟨p, hp, hl⟩; exact ⟨p, hp, (softOf_eq_some_iff p l).mp hl⟩
  · rintro ⟨p, hp, hcond⟩; exact ⟨p, hp, (softOf_eq_some_iff p l).mpr hcond⟩

theorem strongOf_eq_some_iff (p : ArtistRecord × ArtistRecord) (l : Link) :
    strongOf p = some l ↔
      (p.1.genre ≠ [] ∧ p.2.genre ≠ [] ∧
       (∃ g, g ∈ lowerGenres p.1.genre ∧ g ∈ lowerGenres p.2.genre) ∧
       pairPrimary p.1 ≠ "" ∧ pairPrimary p.1 = pairPrimary p.2 ∧
       l = ⟨p.1.id, p.2.id, pairPrimary p.1, overlapCount p⟩) := by
  unfold strongOf overlapCount
  dsimp only
  split_ifs with h1 h2 h3
  · constructor
    · intro h; exact absurd h (by simp)
    · rintro ⟨hg1, hg2, _, _, _⟩
      rcases h1 with h | h
      · exact hg1 ((lowerGenres_len_zero _).mp h)
      · exact hg2 ((lowerGenres_len_zero _).mp h)
  · constructor
    · intro h; exact absurd h (by simp)
    · rintro ⟨hg1, hg2, ⟨g, hga, hgb⟩, _, _⟩
      have hnil := List.length_eq_zero.mp h2
      rw [List.filter_eq_nil_iff] at hnil
      exact (hnil g hga) (by simpa using hgb)
  · constructor
    · intro h
      injection h with h
      subst h
      push_neg at h1
      refine ⟨?_, ?_, ?_, h3.1, h3.2, rfl⟩
      · exact fun he => h1.1 ((lowerGenres_len_zero _).mpr he)
      · exact fun he => h1.2 ((lowerGenres_len_zero _).mpr he)
      · have hne : ((lowerGenres p.1.genre).filter
            (fun g => (lowerGenres p.2.genre).contains g)) ≠ [] := by
          intro hnil
          exact h2 (by rw [hnil]; rfl)
        rcases List.exists_mem_of_ne_nil _ hne with ⟨g, hg⟩
        have hg' := List.mem_filter.mp hg
        exact ⟨g, hg'.1, by simpa using hg'.2⟩
    · rintro ⟨_, _, _, _, _, rfl⟩; rfl
  · constructor
    · intro h; exact absurd h (by simp)
    · rintro ⟨_, _, _, hp1, hp2, _⟩; exact h3 ⟨hp1, hp2⟩

/-- Branch analysis of one loop iteration: a pair yields nothing, a soft
link, or a strong link (the latter appended only when its dedupe key is
new, and always recording the key). -/
theorem stepPair_cases (s : ClassifyState) (p : ArtistRecord × ArtistRecord) :
    (strongOf p = none ∧ softOf p = none ∧ stepPair s p = s) ∨
    (∃ l, softOf p = some l ∧ strongOf p = none ∧
      stepPair s p = { s with softLinks := s.softLinks ++ [l] }) ∨
    (∃ l, strongOf p = some l ∧ softOf p = none ∧
      ((s.strongKeys.contains (pairKey p) = true ∧ stepPair s p = s) ∨
       (s.strongKeys.contains (pairKey p) = false ∧
        stepPair s p = { s with links := s.links ++ [l],
                                strongKeys := s.strongKeys ++ [pairKey p] }))) := by
  unfold stepPair strongOf softOf
  dsimp only
  split_ifs with h1 h2 h3 h4
  · exact Or.inl ⟨rfl, rfl, rfl⟩
  · exact Or.inl ⟨rfl, rfl, rfl⟩
  · exact Or.inr (Or.inr ⟨_, rfl, rfl, Or.inl ⟨h4, rfl⟩⟩)
  · exact Or.inr (Or.inr ⟨_, rfl, rfl, Or.inr ⟨by simpa using h4, rfl⟩⟩)
  · exact Or.inr (Or.inl ⟨_, rfl, rfl, rfl⟩)

theorem strongOf_fields (p : ArtistRecord × ArtistRecord) (l : Link)
    (h : strongOf p = some l) :
    l.sourceId = p.1.id ∧ l.targetId = p.2.id ∧ p.1.genre ≠ [] ∧ p.2.genre ≠ [] := by
  rcases (strongOf_eq_some_iff p l).mp h with ⟨h1, h2, _, _, _, rfl⟩
  exact ⟨rfl, rfl, h1, h2⟩

theorem softOf_fields (p : ArtistRecord × ArtistRecord) (l : Link)
    (h : softOf p = some l) :
    l.sourceId = p.1.id ∧ l.targetId = p.2.id ∧ p.1.genre ≠ [] ∧ p.2.genre ≠ [] := by
  rcases (softOf_eq_some_iff p l).mp h with ⟨h1, h2, _, _, rfl⟩
  exact ⟨rfl, rfl, h1, h2⟩

theorem linkKey_of_strongOf (p : ArtistRecord × ArtistRecord) (l : Link)
    (h : strongOf p = some l) : linkKey l = pairKey p := by
  rcases strongOf_fields p l h with ⟨h1, h2, _, _⟩
  unfold linkKey pairKey
  rw [h1, h2]

theorem classifyFrom_strong :
    ∀ (ps : List (ArtistRecord × ArtistRecord)) (s : ClassifyState),
      s.strongKeys = s.links.map linkKey →
      (∀ k ∈ s.strongKeys, k ∉ ps.map pairKey) →
      (ps.map pairKey).Nodup →
      (ps.foldl stepPair s).links = s.links ++ ps.filterMap strongOf := by
  intro ps
  induction ps with
  | nil => intro s _ _ _; simp
  | cons p ps ih =>
    intro s hkeys hdisj hnodup
    simp only [List.map_cons, List.nodup_cons] at hnodup
    have hdisj' : ∀ k ∈ s.strongKeys, k ∉ ps.map pairKey := by
      intro k hk hm
      exact hdisj k hk (by simp [hm])
    rw [List.foldl_cons]
    rcases stepPair_cases s p with ⟨hso, _, hstep⟩ | ⟨l, _, hso, hstep⟩ |
      ⟨l, hso, _, hbr⟩
    · rw [hstep, List.filterMap_cons_none hso, ih s hkeys hdisj' hnodup.2]
    · rw [hstep, List.filterMap_cons_none hso]
      exact ih _ hkeys hdisj' hnodup.2
    · rcases hbr with ⟨hc, _⟩ | ⟨hc, hstep⟩
      · exfalso
        have hin : pairKey p ∈ s.strongKeys := by simpa using hc
        exact hdisj (pairKey p) hin (by simp)
      · rw [hstep, List.filterMap_cons_some hso]
        have hkeys' : (s.strongKeys ++ [pairKey p]) =
            (s.links ++ [l]).map linkKey := by
          rw [List.map_append, ← hkeys, List.map_singleton, linkKey_of_strongOf p l hso]
        have hdisj2 : ∀ k ∈ s.strongKeys ++ [pairKey p], k ∉ ps.map pairKey := by
          intro k hk
          rcases List.mem_append.mp hk with hk | hk
          · exact hdisj' k hk
          · rcases List.mem_singleton.mp hk with rfl
            exact hnodup.1
        rw [ih _ hkeys' hdisj2 hnodup.2]
        simp

theorem mem_allPairs (nodes : List ArtistRecord) (p : ArtistRecord × ArtistRecord)
    (hp : p ∈ allPairs nodes) : p.1 ∈ nodes ∧ p.2 ∈ nodes := by
  induction nodes with
  | nil => simp [allPairs] at hp
  | cons a rest ih =>
    simp only [allPairs, List.mem_append, List.mem_map] at hp
    rcases hp with ⟨b, hb, rfl⟩ | hp
    · exact ⟨by simp, by simp [hb]⟩
    · rcases ih hp with ⟨h1, h2⟩
      exact ⟨List.mem_cons_of_mem _ h1, List.mem_cons_of_mem _ h2⟩

theorem sortPair_eq_cases (a b c d : String) (h : sortPair a b = sortPair c d) :
    (a = c ∧ b = d) ∨ (a = d ∧ b = c) := by
  unfold sortPair at h
  split_ifs at h <;> simp only [Prod.mk.injEq] at h
  · exact Or.inl h
  · exact Or.inr h
  · exact Or.inr ⟨h.2, h.1⟩
  · exact Or.inl ⟨h.2, h.1⟩

theorem nodup_allPairs_pairIds (nodes : List ArtistRecord)
    (h : (nodes.map (fun a => a.id)).Nodup) :
    ((allPairs nodes).map pairIds).Nodup := by
  induction nodes with
  | nil => simp [allPairs]
  | cons a rest ih =>
    simp only [List.map_cons, List.nodup_cons] at h
    obtain ⟨haid, hrest⟩ := h
    simp only [allPairs, List.map_append, List.map_map]
    rw [List.nodup_append]
    refine ⟨?_, ih hrest, ?_⟩
    · apply List.Nodup.map_on ?_ (List.Nodup.of_map _ hrest)
      intro x hx y hy hxy
      simp only [Function.comp, pairIds] at hxy
      rcases sortPair_eq_cases _ _ _ _ hxy with ⟨_, h2⟩ | ⟨h1, _⟩
      · exact List.inj_on_of_nodup_map hrest hx hy h2
      · exact absurd (h1 ▸ List.mem_map_of_mem (fun n => n.id) hy) haid
    · intro x hx1 hx2
      simp only [List.mem_map, Function.comp] at hx1 hx2
      rcases hx1 with ⟨b, hb, rfl⟩
      rcases hx2 with ⟨q, hq, he⟩
      have hq12 := mem_allPairs rest q hq
      simp only [pairIds] at he
      rcases sortPair_eq_cases _ _ _ _ he with ⟨h1, _⟩ | ⟨_, h2⟩
      · exact haid (h1 ▸ List.mem_map_of_mem (fun n => n.id) hq12.1)
      · exact haid (h2 ▸ List.mem_map_of_mem (fun n => n.id) hq12.2)

theorem append_sep_inj :
    ∀ (s1 : List Char), ∀ (t1 s2 t2 : List Char),
      '_' ∉ s1 → '_' ∉ t1 →
      s1 ++ '_' :: '_' :: s2 = t1 ++ '_' :: '_' :: t2 → s1 = t1 ∧ s2 = t2 := by
  intro s1
  induction s1 with
  | nil =>
    intro t1 s2 t2 _ h2 he
    cases t1 with
    | nil =>
      simp only [List.nil_append, List.cons.injEq, true_and] at he
      exact ⟨rfl, he⟩
    | cons c t1 =>
      exfalso
      simp only [List.nil_append, List.cons_append, List.cons.injEq] at he
      apply h2
      rw [← he.1]
      exact List.mem_cons_self _ _
  | cons c s1 ih =>
    intro t1 s2 t2 h1 h2 he
    cases t1 with
    | nil =>
      exfalso
      simp only [List.cons_append, List.nil_append, List.cons.injEq] at he
      apply h1
      rw [he.1]
      exact List.mem_cons_self _ _
    | cons c' t1 =>
      simp only [List.cons_append, List.cons.injEq] at he
      have h1' : '_' ∉ s1 := fun hm => h1 (List.mem_cons_of_mem _ hm)
      have h2' : '_' ∉ t1 := fun hm => h2 (List.mem_cons_of_mem _ hm)
      rcases ih t1 s2 t2 h1' h2' he.2 with ⟨hst, hs2⟩
      exact ⟨by rw [he.1, hst], hs2⟩

theorem strongKey_data (a b : String) :
    (strongKey a b).data =
      (sortPair a b).1.data ++ '_' :: '_' :: (sortPair a b).2.data := by
  unfold strongKey sortPair
  split_ifs
  · simp [String.data_append]
  · simp [String.data_append]

theorem strongKey_inj (a b c d : String)
    (ha : '_' ∉ a.data) (hb : '_' ∉ b.data) (hc : '_' ∉ c.data) (hd : '_' ∉ d.data)
    (h : strongKey a b = strongKey c d) : sortPair a b = sortPair c d := by
  have hdata := congrArg String.data h
  rw [strongKey_data, strongKey_data] at hdata
  have h1 : '_' ∉ (sortPair a b).1.data := by
    unfold sortPair; split_ifs; exacts [ha, hb]
  have h2 : '_' ∉ (sortPair c d).1.data := by
    unfold sortPair; split_ifs; exacts [hc, hd]
  rcases append_sep_inj _ _ _ _ h1 h2 hdata with ⟨e1, e2⟩
  have f1 : (sortPair a b).1 = (sortPair c d).1 := String.ext e1
  have f2 : (sortPair a b).2 = (sortPair c d).2 := String.ext e2
  exact Prod.ext f1 f2

theorem nodup_allPairs_pairKey (nodes : List ArtistRecord)
    (hids : (nodes.map (fun a => a.id)).Nodup)
    (hfree : ∀ a ∈ nodes, '_' ∉ a.id.data) :
    ((allPairs nodes).map pairKey).Nodup := by
  have hp := nodup_allPairs_pairIds nodes hids
  have hap : (allPairs nodes).Nodup := List.Nodup.of_map _ hp
  apply List.Nodup.map_on ?_ hap
  intro p hpm q hqm hkey
  have hpn := mem_allPairs nodes p hpm
  have hqn := mem_allPairs nodes q hqm
  unfold pairKey at hkey
  have hids_eq : sortPair p.1.id p.2.id = sortPair q.1.id q.2.id :=
    strongKey_inj _ _ _ _ (hfree _ hpn.1) (hfree _ hpn.2)
      (hfree _ hqn.1) (hfree _ hqn.2) hkey
  exact List.inj_on_of_nodup_map hp hpm hqm hids_eq

/-! ## Claim C1 — strong edges: clique, not path -/

/-- Claim C1, counterexample: three artists all with primary genre `"house"`
yield `3` strong edges — one per unordered pair, a clique — while the
claim's path rule predicts `n - 1 = 2`. -/
theorem c1_path_counterexample :
    (classify trioHouse).links.length = 3 ∧ trioHouse.length - 1 = 2 :=
  ⟨by decide, by decide⟩

/-- Claim C1, amended: for artists with pairwise distinct, underscore-free
ids, the strong edges of the main page classifier are exactly one edge
per unordered pair whose genre lists are non-empty, whose lowercased
genre lists overlap, and whose lowercased primary genres are equal and
non-empty — every qualifying pair is connected (a clique per genre
group, `n * (n-1) / 2` edges for a group of `n`), with no grouping,
sorting, or consecutive-pair chaining. -/
theorem c1_strong_links_clique (nodes : List ArtistRecord)
    (hids : (nodes.map (fun a => a.id)).Nodup)
    (hfree : ∀ a ∈ nodes, '_' ∉ a.id.data) :
    (classify nodes).links = (allPairs nodes).filterMap strongOf ∧
    ∀ l : Link, l ∈ (classify nodes).links ↔
      ∃ p ∈ allPairs nodes,
        p.1.genre ≠ [] ∧ p.2.genre ≠ [] ∧
        (∃ g, g ∈ lowerGenres p.1.genre ∧ g ∈ lowerGenres p.2.genre) ∧
        pairPrimary p.1 ≠ "" ∧ pairPrimary p.1 = pairPrimary p.2 ∧
        l = ⟨p.1.id, p.2.id, pairPrimary p.1, overlapCount p⟩ := by
  have heq : (classify nodes).links = (allPairs nodes).filterMap strongOf := by
    have h := classifyFrom_strong (allPairs nodes) ⟨[], [], []⟩ rfl (by simp)
      (nodup_allPairs_pairKey nodes hids hfree)
    simpa [classify] using h
  refine ⟨heq, fun l => ?_⟩
  rw [heq, List.mem_filterMap]
  constructor
  · rintro ⟨p, hp, hl⟩; exact ⟨p, hp, (strongOf_eq_some_iff p l).mp hl⟩
  · rintro ⟨p, hp, hc⟩; exact ⟨p, hp, (strongOf_eq_some_iff p l).mpr hc⟩

/-- Witness for C1 (amended) on the three house artists. -/
theorem c1_strong_links_clique_witness :
    ((trioHouse.map (fun a => a.id)).Nodup ∧ ∀ a ∈ trioHouse, '_' ∉ a.id.data) ∧
    (classify trioHouse).links = (allPairs trioHouse).filterMap strongOf := by
  refine ⟨⟨by decide, by decide⟩, ?_⟩
  exact (c1_strong_links_clique trioHouse (by decide) (by decide)).1

/-! ## Claim C7 — no duplicate pairs, strong/soft disjoint -/

theorem classifyFrom_pairs_nodup :
    ∀ (ps : List (ArtistRecord × ArtistRecord)) (s : ClassifyState),
      (s.links.map linkPair ++ s.softLinks.map linkPair).Nodup →
      (∀ u ∈ s.links.map linkPair ++ s.softLinks.map linkPair, u ∉ ps.map pairIds) →
      (ps.map pairIds).Nodup →
      ((ps.foldl stepPair s).links.map linkPair ++
        (ps.foldl stepPair s).softLinks.map linkPair).Nodup := by
  intro ps
  induction ps with
  | nil => intro s h _ _; simpa using h
  | cons p ps ih =>
    intro s hnd hdisj hpn
    simp only [List.map_cons, List.nodup_cons] at hpn
    rw [List.foldl_cons]
    have hdisj' : ∀ u ∈ s.links.map linkPair ++ s.softLinks.map linkPair,
        u ∉ ps.map pairIds := fun u hu hm => hdisj u hu (by simp [hm])
    have hnotin : pairIds p ∉ s.links.map linkPair ++ s.softLinks.map linkPair :=
      fun hm => hdisj _ hm (by simp)
    rcases stepPair_cases s p with ⟨_, _, hstep⟩ | ⟨l, hsoft, _, hstep⟩ |
      ⟨l, hso, _, hbr⟩
    · rw [hstep]; exact ih s hnd hdisj' hpn.2
    · have hlp : linkPair l = pairIds p := by
        rcases softOf_fields p l hsoft with ⟨h1, h2, _, _⟩
        unfold linkPair pairIds; rw [h1, h2]
      rw [hstep]
      apply ih
      · show (s.links.map linkPair ++ (s.softLinks ++ [l]).map linkPair).Nodup
        rw [List.map_append, List.map_singleton, hlp, ← List.append_assoc]
        refine List.Nodup.append hnd (List.nodup_singleton _) ?_
        intro u hu hu2
        rcases List.mem_singleton.mp hu2 with rfl
        exact hnotin hu
      · show ∀ u ∈ s.links.map linkPair ++ (s.softLinks ++ [l]).map linkPair,
          u ∉ ps.map pairIds
        intro u hu
        rw [List.map_append, List.map_singleton, hlp, ← List.append_assoc] at hu
        rcases List.mem_append.mp hu with hu | hu
        · exact hdisj' u hu
        · rcases List.mem_singleton.mp hu with rfl
          exact hpn.1
      · exact hpn.2
    · have hlp : linkPair l = pairIds p := by
        rcases strongOf_fields p l hso with ⟨h1, h2, _, _⟩
        unfold linkPair pairIds; rw [h1, h2]
      rcases hbr with ⟨_, hstep⟩ | ⟨_, hstep⟩
      · rw [hstep]; exact ih s hnd hdisj' hpn.2
      · rw [hstep]
        have hperm : ((s.links ++ [l]).map linkPair ++ s.softLinks.map linkPair).Perm
            ((s.links.map linkPair ++ s.softLinks.map linkPair) ++ [pairIds p]) := by
          rw [List.map_append, List.map_singleton, hlp, List.append_assoc,
            List.append_assoc]
          exact List.Perm.append_left _ (List.perm_append_comm)
        apply ih
        · exact hperm.nodup_iff.mpr
            (List.Nodup.append hnd (List.nodup_singleton _)
              (fun u hu hu2 => by
                rcases List.mem_singleton.mp hu2 with rfl
                exact hnotin hu))
        · intro u hu
          rcases List.mem_append.mp (hperm.mem_iff.mp hu) with hu | hu
          · exact hdisj' u hu
          · rcases List.mem_singleton.mp hu with rfl
            exact hpn.1
        · exact hpn.2

/-- Claim C7: on artist lists with pairwise distinct ids, no unordered pair
of ids carries both a strong and a soft edge, and within each kind no
unordered pair appears twice. -/
theorem c7_strong_soft_disjoint (nodes : List ArtistRecord)
    (hids : (nodes.map (fun a => a.id)).Nodup) :
    (∀ e ∈ (classify nodes).links, ∀ f ∈ (classify nodes).softLinks,
        linkPair e ≠ linkPair f) ∧
    ((classify nodes).links.map linkPair).Nodup ∧
    ((classify nodes).softLinks.map linkPair).Nodup := by
  have h : ((classify nodes).links.map linkPair ++
      (classify nodes).softLinks.map linkPair).Nodup :=
    classifyFrom_pairs_nodup (allPairs nodes) ⟨[], [], []⟩ (by simp) (by simp)
      (nodup_allPairs_pairIds nodes hids)
  rw [List.nodup_append] at h
  obtain ⟨h1, h2, hdj⟩ := h
  refine ⟨?_, h1, h2⟩
  intro e he f hf heq
  exact hdj (List.mem_map_of_mem _ he) (by rw [heq]; exact List.mem_map_of_mem _ hf)

/-- Witness for C7 on the three house artists. -/
theorem c7_strong_soft_disjoint_witness :
    (trioHouse.map (fun a => a.id)).Nodup ∧
    ((∀ e ∈ (classify trioHouse).links, ∀ f ∈ (classify trioHouse).softLinks,
        linkPair e ≠ linkPair f) ∧
     ((classify trioHouse).links.map linkPair).Nodup ∧
     ((classify trioHouse).softLinks.map linkPair).Nodup) :=
  ⟨by decide, c7_strong_soft_disjoint trioHouse (by decide)⟩

/-! ## Claim C10 — empty-genre artists touch no edge -/

theorem classifyFrom_strong_sublist :
    ∀ (ps : List (ArtistRecord × ArtistRecord)) (s : ClassifyState),
      ((ps.foldl stepPair s).links).Sublist (s.links ++ ps.filterMap strongOf) := by
  intro ps
  induction ps with
  | nil => intro s; simp
  | cons p ps ih =>
    intro s
    rw [List.foldl_cons]
    rcases stepPair_cases s p with ⟨hso, _, hstep⟩ | ⟨l, _, hso, hstep⟩ |
      ⟨l, hso, _, hbr⟩
    · rw [hstep, List.filterMap_cons_none hso]; exact ih s
    · rw [hstep, List.filterMap_cons_none hso]; exact ih _
    · rw [List.filterMap_cons_some hso]
      rcases hbr with ⟨_, hstep⟩ | ⟨_, hstep⟩
      · rw [hstep]
        refine (ih s).trans ?_
        apply List.Sublist.append_left
        exact (List.Sublist.refl _).cons _
      · rw [hstep]
        have h2 := ih { s with links := s.links ++ [l],
                               strongKeys := s.strongKeys ++ [pairKey p] }
        rw [List.append_assoc] at h2
        simpa using h2

/-- Claim C10: an artist with an empty genre list is never an endpoint of
any strong or soft edge (given pairwise distinct ids); in particular two
artists whose empty genre lists both map to the sentinel primary
`"unknown"` are not connected by a strong edge despite equal primaries. -/
theorem c10_empty_genre_isolated (nodes : List ArtistRecord) (a : ArtistRecord)
    (ha : a ∈ nodes) (hg : a.genre = [])
    (hids : (nodes.map (fun n => n.id)).Nodup) :
    ∀ l ∈ (classify nodes).links ++ (classify nodes).softLinks,
      l.sourceId ≠ a.id ∧ l.targetId ≠ a.id := by
  intro l hl
  have hmem : ∃ p ∈ allPairs nodes,
      l.sourceId = p.1.id ∧ l.targetId = p.2.id ∧
      p.1.genre ≠ [] ∧ p.2.genre ≠ [] := by
    rcases List.mem_append.mp hl with hl | hl
    · have hsub := classifyFrom_strong_sublist (allPairs nodes) ⟨[], [], []⟩
      have hin : l ∈ (allPairs nodes).filterMap strongOf := by
        have := hsub.subset hl
        simpa using this
      rcases List.mem_filterMap.mp hin with ⟨p, hp, hf⟩
      rcases strongOf_fields p l hf with ⟨h1, h2, h3, h4⟩
      exact ⟨p, hp, h1, h2, h3, h4⟩
    · rw [classify_soft] at hl
      rcases List.mem_filterMap.mp hl with ⟨p, hp, hf⟩
      rcases softOf_fields p l hf with ⟨h1, h2, h3, h4⟩
      exact ⟨p, hp, h1, h2, h3, h4⟩
  rcases hmem with ⟨p, hp, h1, h2, hg1, hg2⟩
  have hpn := mem_allPairs nodes p hp
  constructor
  · intro he
    have : p.1 = a := List.inj_on_of_nodup_map hids hpn.1 ha (by rw [← h1, he])
    exact hg1 (this ▸ hg)
  · intro he
    have : p.2 = a := List.inj_on_of_nodup_map hids hpn.2 ha (by rw [← h2, he])
    exact hg2 (this ▸ hg)

/-- Witness for C10: among two `"unknown"`-primary artists and two house
artists, no edge touches the empty-genre artist `"u1"`. -/
theorem c10_empty_genre_isolated_witness :
    ((⟨"u1", "Una", [], none, none⟩ : ArtistRecord) ∈ quadUnknown ∧
     (⟨"u1", "Una", [], none, none⟩ : ArtistRecord).genre = [] ∧
     (quadUnknown.map (fun n => n.id)).Nodup) ∧
    (∀ l ∈ (classify quadUnknown).links ++ (classify quadUnknown).softLinks,
      l.sourceId ≠ "u1" ∧ l.targetId ≠ "u1") := by
  refine ⟨⟨by decide, rfl, by decide⟩, ?_⟩
  exact c10_empty_genre_isolated quadUnknown ⟨"u1", "Una", [], none, none⟩
    (by decide) rfl (by decide)

/-! ## Normalizer characterization -/

theorem mergeArtist_id (e : ArtistRecord) (r : RawRecord) :
    (mergeArtist e r).id = e.id := rfl

theorem normalize_append_one (rs : List RawRecord) (r : RawRecord) :
    normalize (rs ++ [r]) = upsert (normalize rs) r := by
  simp [normalize, List.foldl_append]

theorem recordsFor_append_one (rs : List RawRecord) (r : RawRecord) (x : String) :
    recordsFor (rs ++ [r]) x =
      recordsFor rs x ++ (if resolveId r = x then [r] else []) := by
  simp only [recordsFor, List.filter_append, List.filter_singleton]
  by_cases h : resolveId r = x
  · simp [h]
  · simp [h]

theorem normSpec_append_one (x : String) (l : List RawRecord) (r : RawRecord) :
    normSpec x (l ++ [r]) =
      some (match normSpec x l with
            | none => mkArtist x r
            | some a => mergeArtist a r) := by
  cases l with
  | nil => rfl
  | cons r₀ rest => simp [normSpec, List.foldl_append]

theorem filter_map_merge_ne (acc : List ArtistRecord) (r : RawRecord)
    (id x : String) (hne : x ≠ id) :
    (acc.map (fun a => if a.id = id then mergeArtist a r else a)).filter
        (fun a => a.id = x) =
      acc.filter (fun a => a.id = x) := by
  induction acc with
  | nil => rfl
  | cons b acc ih =>
    by_cases hb : b.id = id
    · have hne1 : ¬((mergeArtist b r).id = x) := by
        rw [mergeArtist_id, hb]; exact fun h => hne h.symm
      have hne2 : ¬(b.id = x) := by rw [hb]; exact fun h => hne h.symm
      have hne3 : ¬(id = x) := fun h => hne h.symm
      simp [hb, hne1, hne2, hne3, ih, List.filter_cons]
    · simp [hb, ih, List.filter_cons]

theorem filter_map_merge_eq (acc : List ArtistRecord) (r : RawRecord) (id : String) :
    (acc.map (fun a => if a.id = id then mergeArtist a r else a)).filter
        (fun a => a.id = id) =
      (acc.filter (fun a => a.id = id)).map (fun a => mergeArtist a r) := by
  induction acc with
  | nil => rfl
  | cons b acc ih =>
    by_cases hb : b.id = id
    · have h1 : (mergeArtist b r).id = id := by rw [mergeArtist_id, hb]
      simp [hb, h1, ih]
    · simp [hb, ih, List.filter_cons]

theorem any_id_iff_filter_ne_nil (acc : List ArtistRecord) (id : String) :
    acc.any (fun a => a.id = id) = true ↔
      acc.filter (fun a => a.id = id) ≠ [] := by
  rw [List.any_eq_true]
  constructor
  · rintro ⟨a, ha, hid⟩ hnil
    have : a ∈ acc.filter (fun a => a.id = id) := List.mem_filter.mpr ⟨ha, hid⟩
    rw [hnil] at this
    simp at this
  · intro hne
    rcases List.exists_mem_of_ne_nil _ hne with ⟨a, ha⟩
    rcases List.mem_filter.mp ha with ⟨h1, h2⟩
    exact ⟨a, h1, h2⟩

/-- Master characterization: for any non-empty id `x`, the normalized
output restricted to `x` is exactly the fold of the merge policy over
the records that resolve to `x`. -/
theorem normalize_filter (rs : List RawRecord) (x : String) (hx : x ≠ "") :
    (normalize rs).filter (fun a => a.id = x) =
      (normSpec x (recordsFor rs x)).toList := by
  induction rs using List.reverseRecOn with
  | nil => rfl
  | append_singleton rs r ih =>
    rw [normalize_append_one, recordsFor_append_one]
    unfold upsert
    dsimp only
    by_cases hid0 : resolveId r = ""
    · rw [if_pos hid0]
      have hnx : ¬(resolveId r = x) := fun h => hx (h.symm.trans hid0)
      rw [if_neg hnx, List.append_nil]
      exact ih
    · rw [if_neg hid0]
      by_cases hxid : resolveId r = x
      · rw [if_pos hxid]
        by_cases hfound : (normalize rs).any (fun a => a.id = resolveId r) = true
        · rw [if_pos hfound]
          rw [any_id_iff_filter_ne_nil] at hfound
          rw [hxid] at hfound
          rw [ih] at hfound
          -- the filter is non-empty, so normSpec is some
          cases hspec : normSpec x (recordsFor rs x) with
          | none => rw [hspec] at hfound; simp at hfound
          | some A =>
            rw [hspec] at hfound
            have hfil : (normalize rs).filter (fun a => a.id = x) = [A] := by
              rw [ih, hspec]; rfl
            rw [← hxid, filter_map_merge_eq, hxid, hfil,
              normSpec_append_one, hspec]
            rfl
        · rw [if_neg hfound]
          rw [any_id_iff_filter_ne_nil] at hfound
          push_neg at hfound
          rw [hxid, ih] at hfound
          cases hspec : normSpec x (recordsFor rs x) with
          | some A => rw [hspec] at hfound; simp at hfound
          | none =>
            have hrecnil : recordsFor rs x = [] := by
              cases hrec : recordsFor rs x with
              | nil => rfl
              | cons r₀ rest => rw [hrec] at hspec; simp [normSpec] at hspec
            rw [List.filter_append, ih, hspec, hrecnil, normSpec_append_one]
            simp [normSpec, mkArtist, hxid]
      · rw [if_neg hxid, List.append_nil]
        by_cases hfound : (normalize rs).any (fun a => a.id = resolveId r) = true
        · rw [if_pos hfound]
          rw [filter_map_merge_ne _ _ _ _ (fun h => hxid h.symm)]
          exact ih
        · rw [if_neg hfound]
          rw [List.filter_append, ih]
          simp only [List.filter_singleton]
          have : (decide ((mkArtist (resolveId r) r).id = x)) = false := by
            simp [mkArtist, hxid]
          rw [this]
          simp

theorem foldl_merge_id (rest : List RawRecord) :
    ∀ a : ArtistRecord, (rest.foldl mergeArtist a).id = a.id := by
  induction rest with
  | nil => intro a; rfl
  | cons r rest ih => intro a; rw [List.foldl_cons, ih, mergeArtist_id]

theorem firstNonUnknown_cons (n : String) (l : List String) :
    firstNonUnknown (n :: l) = if n = "Unknown" then firstNonUnknown l else n := by
  unfold firstNonUnknown
  by_cases h : n = "Unknown"
  · simp [h]
  · simp [h]

theorem foldl_merge_name (rest : List RawRecord) :
    ∀ a : ArtistRecord, (rest.foldl mergeArtist a).name =
      if a.name = "Unknown" then firstNonUnknown (rest.map recName) else a.name := by
  induction rest with
  | nil =>
    intro a
    by_cases h : a.name = "Unknown" <;> simp [h, firstNonUnknown]
  | cons r rest ih =>
    intro a
    rw [List.foldl_cons, ih, List.map_cons, firstNonUnknown_cons]
    by_cases h : a.name = "Unknown"
    · by_cases hr : recName r = "Unknown"
      · have hm : (mergeArtist a r).name = a.name := by simp [mergeArtist, hr]
        rw [hm]
        simp [h, hr]
      · have hm : (mergeArtist a r).name = recName r := by simp [mergeArtist, h, hr]
        rw [hm]
        simp [h, hr]
    · have hm : (mergeArtist a r).name = a.name := by simp [mergeArtist, h]
      rw [hm]
      simp [h]

theorem firstSome_cons (o : Option String) (l : List (Option String)) :
    firstSome (o :: l) = if o.isNone then firstSome l else o := by
  cases o <;> simp [firstSome]

theorem foldl_merge_image (rest : List RawRecord) :
    ∀ a : ArtistRecord, (rest.foldl mergeArtist a).image =
      if a.image.isNone then firstSome (rest.map recImage) else a.image := by
  induction rest with
  | nil => intro a; cases h : a.image <;> simp [h, firstSome]
  | cons r rest ih =>
    intro a
    rw [List.foldl_cons, ih, List.map_cons, firstSome_cons]
    cases h : a.image with
    | some i =>
      have hm : (mergeArtist a r).image = a.image := by simp [mergeArtist, h]
      rw [hm, h]
      simp
    | none =>
      have hm : (mergeArtist a r).image = recImage r := by simp [mergeArtist, h]
      rw [hm]
      simp

theorem foldl_merge_spotify (rest : List RawRecord) :
    ∀ a : ArtistRecord, (rest.foldl mergeArtist a).spotify =
      if a.spotify.isNone then firstSome (rest.map recSpotify) else a.spotify := by
  induction rest with
  | nil => intro a; cases h : a.spotify <;> simp [h, firstSome]
  | cons r rest ih =>
    intro a
    rw [List.foldl_cons, ih, List.map_cons, firstSome_cons]
    cases h : a.spotify with
    | some i =>
      have hm : (mergeArtist a r).spotify = a.spotify := by simp [mergeArtist, h]
      rw [hm, h]
      simp
    | none =>
      have hm : (mergeArtist a r).spotify = recSpotify r := by simp [mergeArtist, h]
      rw [hm]
      simp

theorem foldl_merge_genre (rest : List RawRecord) :
    ∀ a : ArtistRecord, (rest.foldl mergeArtist a).genre =
      rest.foldl (fun g r => firstDedup (g ++ recGenres r)) a.genre := by
  induction rest with
  | nil => intro a; rfl
  | cons r rest ih =>
    intro a
    rw [List.foldl_cons, List.foldl_cons, ih]
    rfl

theorem firstDedupAux_congr (l : List String) :
    ∀ seen₁ seen₂, (∀ y, y ∈ seen₁ ↔ y ∈ seen₂) →
      firstDedupAux seen₁ l = firstDedupAux seen₂ l := by
  induction l with
  | nil => intro _ _ _; rfl
  | cons a l ih =>
    intro s1 s2 h
    simp only [firstDedupAux]
    have hc : s1.contains a = s2.contains a := by
      by_cases hm : a ∈ s1
      · have hm2 : a ∈ s2 := (h a).mp hm
        simp [hm, hm2]
      · have hm2 : a ∉ s2 := fun hx => hm ((h a).mpr hx)
        simp [hm, hm2]
    rw [hc]
    split_ifs with hsc
    · exact ih s1 s2 h
    · rw [ih (s1 ++ [a]) (s2 ++ [a]) (fun y => by simp [h y])]

theorem firstDedupAux_append (l l' : List String) :
    ∀ seen, firstDedupAux seen (l ++ l') =
      firstDedupAux seen l ++ firstDedupAux (seen ++ l) l' := by
  induction l with
  | nil => intro seen; simp [firstDedupAux]
  | cons a l ih =>
    intro seen
    simp only [List.cons_append, firstDedupAux, List.append_eq]
    by_cases hc : seen.contains a = true
    · rw [if_pos hc, if_pos hc, ih]
      congr 1
      apply firstDedupAux_congr
      intro y
      have ha : a ∈ seen := by simpa using hc
      simp only [List.mem_append, List.mem_cons]
      constructor
      · rintro (hy | hy)
        · exact Or.inl hy
        · exact Or.inr (Or.inr hy)
      · rintro (hy | rfl | hy)
        · exact Or.inl hy
        · exact Or.inl ha
        · exact Or.inr hy
    · rw [if_neg hc, if_neg hc, ih, List.append_assoc]
      rfl

theorem firstDedupAux_id (l : List String) :
    ∀ seen, (∀ y ∈ seen, y ∉ l) → l.Nodup → firstDedupAux seen l = l := by
  induction l with
  | nil => intro _ _ _; rfl
  | cons a l ih =>
    intro seen hdisj hnd
    simp only [firstDedupAux]
    have hc : ¬(seen.contains a = true) := by
      intro h
      exact hdisj a (by simpa using h) (by simp)
    rw [if_neg hc]
    congr 1
    apply ih
    · intro y hy
      rcases List.mem_append.mp hy with hy | hy
      · exact fun hm => hdisj y hy (List.mem_cons_of_mem _ hm)
      · rcases List.mem_singleton.mp hy with rfl
        exact (List.nodup_cons.mp hnd).1
    · exact (List.nodup_cons.mp hnd).2

theorem firstDedup_idem_append (l l' : List String) :
    firstDedup (firstDedup l ++ l') = firstDedup (l ++ l') := by
  unfold firstDedup
  rw [firstDedupAux_append, firstDedupAux_append]
  congr 1
  · apply firstDedupAux_id
    · intro y hy; simp at hy
    · exact nodup_firstDedupAux l []
  · apply firstDedupAux_congr
    intro y
    simp [mem_firstDedupAux]

theorem genres_foldl_join :
    ∀ (rest : List RawRecord) (g₀ : List String), rest ≠ [] →
      rest.foldl (fun g r => firstDedup (g ++ recGenres r)) g₀ =
        firstDedup (g₀ ++ (rest.map recGenres).join) := by
  intro rest
  induction rest with
  | nil => intro g₀ h; exact absurd rfl h
  | cons r rest ih =>
    intro g₀ _
    rw [List.foldl_cons]
    by_cases hr : rest = []
    · subst hr; simp
    · rw [ih _ hr, firstDedup_idem_append, List.map_cons]
      simp [List.append_assoc]

/-! ## Claim C4 — merge policy on id collision -/

/-- Claim C4: when at least two raw records resolve to the same non-empty
id, the normalized output has exactly one artist with that id; its
genres are the union of the colliding records' genre lists in first-seen
order with exact duplicates removed, its name is the first
non-`"Unknown"` name, and image/spotify keep the first present value (a
populated field is never overwritten by an empty one). -/
theorem c4_merge_policy (rs : List RawRecord) (x : String) (hx : x ≠ "")
    (h2 : 2 ≤ (recordsFor rs x).length) :
    ((normalize rs).filter (fun a => a.id = x)).length = 1 ∧
    ∀ a ∈ (normalize rs).filter (fun a => a.id = x),
      a.id = x ∧
      a.genre = firstDedup ((recordsFor rs x).map recGenres).join ∧
      a.name = firstNonUnknown ((recordsFor rs x).map recName) ∧
      a.image = firstSome ((recordsFor rs x).map recImage) ∧
      a.spotify = firstSome ((recordsFor rs x).map recSpotify) := by
  have hf := normalize_filter rs x hx
  obtain ⟨r₀, rest, hrec⟩ : ∃ r₀ rest, recordsFor rs x = r₀ :: rest := by
    cases hr : recordsFor rs x with
    | nil => rw [hr] at h2; simp at h2
    | cons r₀ rest => exact ⟨r₀, rest, rfl⟩
  have hrest : rest ≠ [] := by
    intro h
    rw [hrec, h] at h2
    simp at h2
  rw [hrec] at hf
  have hfA : (normalize rs).filter (fun a => a.id = x) =
      [rest.foldl mergeArtist (mkArtist x r₀)] := by
    rw [hf]; rfl
  refine ⟨by rw [hfA]; rfl, ?_⟩
  intro a ha
  rw [hfA, List.mem_singleton] at ha
  subst ha
  refine ⟨?_, ?_, ?_, ?_, ?_⟩
  · rw [foldl_merge_id]; rfl
  · rw [foldl_merge_genre, genres_foldl_join rest _ hrest, hrec]
    simp [mkArtist]
  · rw [foldl_merge_name, hrec, List.map_cons, firstNonUnknown_cons]
    rfl
  · rw [foldl_merge_image, hrec, List.map_cons, firstSome_cons]
    rfl
  · rw [foldl_merge_spotify, hrec, List.map_cons, firstSome_cons]
    rfl

/-- Witness for C4 on two colliding `"X"` records plus a `"Y"` record. -/
theorem c4_merge_policy_witness :
    (("X" : String) ≠ "" ∧ (2:Nat) ≤ (recordsFor mergeRecs "X").length) ∧
    (((normalize mergeRecs).filter (fun a => a.id = "X")).length = 1 ∧
     ∀ a ∈ (normalize mergeRecs).filter (fun a => a.id = "X"),
       a.id = "X" ∧
       a.genre = firstDedup ((recordsFor mergeRecs "X").map recGenres).join ∧
       a.name = firstNonUnknown ((recordsFor mergeRecs "X").map recName) ∧
       a.image = firstSome ((recordsFor mergeRecs "X").map recImage) ∧
       a.spotify = firstSome ((recordsFor mergeRecs "X").map recSpotify)) :=
  ⟨⟨by decide, by decide⟩, c4_merge_policy mergeRecs "X" (by decide) (by decide)⟩

/-! ## Claim C3 — determinism and input-order sensitivity -/

theorem normalize_id_ne_empty (rs : List RawRecord) :
    ∀ a ∈ normalize rs, a.id ≠ "" := by
  have aux : ∀ (rs : List RawRecord) (acc : List ArtistRecord),
      (∀ a ∈ acc, a.id ≠ "") → ∀ a ∈ rs.foldl upsert acc, a.id ≠ "" := by
    intro rs
    induction rs with
    | nil => intro acc h; simpa using h
    | cons r rs ih =>
      intro acc hacc
      rw [List.foldl_cons]
      apply ih
      unfold upsert
      dsimp only
      split_ifs with h1 h2
      · exact hacc
      · intro a ha
        rcases List.mem_map.mp ha with ⟨b, hb, rfl⟩
        by_cases hbid : b.id = resolveId r
        · simp only [if_pos hbid, mergeArtist_id]
          exact hacc b hb
        · simp only [if_neg hbid]
          exact hacc b hb
      · intro a ha
        rcases List.mem_append.mp ha with ha | ha
        · exact hacc a ha
        · rcases List.mem_singleton.mp ha with rfl
          exact h1
  exact aux rs [] (by simp)

theorem normalize_exists_id_iff (rs : List RawRecord) (x : String) :
    (∃ a ∈ normalize rs, a.id = x) ↔ (x ≠ "" ∧ ∃ r ∈ rs, resolveId r = x) := by
  by_cases hx : x = ""
  · subst hx
    constructor
    · rintro ⟨a, ha, hid⟩
      exact absurd hid (normalize_id_ne_empty rs a ha)
    · rintro ⟨h, _⟩
      exact absurd rfl h
  · constructor
    · rintro ⟨a, ha, hid⟩
      refine ⟨hx, ?_⟩
      have hmem : a ∈ (normalize rs).filter (fun b => b.id = x) :=
        List.mem_filter.mpr ⟨ha, by simpa using hid⟩
      have hne : (normalize rs).filter (fun b => b.id = x) ≠ [] := by
        intro h
        rw [h] at hmem
        simp at hmem
      rw [normalize_filter rs x hx] at hne
      cases hrec : recordsFor rs x with
      | nil => rw [hrec] at hne; simp [normSpec] at hne
      | cons r₀ rest =>
        have hr0 : r₀ ∈ recordsFor rs x := by rw [hrec]; simp
        rcases List.mem_filter.mp hr0 with ⟨h1, h2⟩
        exact ⟨r₀, h1, by simpa using h2⟩
    · rintro ⟨_, r, hr, hres⟩
      have hrin : r ∈ recordsFor rs x := List.mem_filter.mpr ⟨hr, by simpa using hres⟩
      cases hrec : recordsFor rs x with
      | nil => rw [hrec] at hrin; simp at hrin
      | cons r₀ rest =>
        have hf := normalize_filter rs x hx
        rw [hrec] at hf
        have hA : (rest.foldl mergeArtist (mkArtist x r₀)) ∈
            (normalize rs).filter (fun b => b.id = x) := by
          rw [hf]
          simp [normSpec]
        rcases List.mem_filter.mp hA with ⟨h1, h2⟩
        exact ⟨_, h1, by simpa using h2⟩

theorem mem_genre_foldl (rest : List RawRecord) :
    ∀ (a : ArtistRecord) (g : String),
      g ∈ (rest.foldl mergeArtist a).genre ↔
        g ∈ a.genre ∨ ∃ r ∈ rest, g ∈ recGenres r := by
  induction rest with
  | nil => intro a g; simp
  | cons r rest ih =>
    intro a g
    rw [List.foldl_cons, ih]
    have hmerge : g ∈ (mergeArtist a r).genre ↔ g ∈ a.genre ∨ g ∈ recGenres r := by
      simp [mergeArtist, mem_firstDedup]
    rw [hmerge]
    constructor
    · rintro ((h | h) | ⟨r', hr', hg⟩)
      · exact Or.inl h
      · exact Or.inr ⟨r, by simp, h⟩
      · exact Or.inr ⟨r', by simp [hr'], hg⟩
    · rintro (h | ⟨r', hr', hg⟩)
      · exact Or.inl (Or.inl h)
      · rcases List.mem_cons.mp hr' with rfl | hr'
        · exact Or.inl (Or.inr hg)
        · exact Or.inr ⟨r', hr', hg⟩

theorem normalize_genre_mem_iff (rs : List RawRecord) (x g : String) :
    (∃ a ∈ normalize rs, a.id = x ∧ g ∈ a.genre) ↔
      (x ≠ "" ∧ ∃ r ∈ rs, resolveId r = x ∧ g ∈ recGenres r) := by
  by_cases hx : x = ""
  · subst hx
    constructor
    · rintro ⟨a, ha, hid, _⟩
      exact absurd hid (normalize_id_ne_empty rs a ha)
    · rintro ⟨h, _⟩
      exact absurd rfl h
  · constructor
    · rintro ⟨a, ha, hid, hg⟩
      refine ⟨hx, ?_⟩
      have hmem : a ∈ (normalize rs).filter (fun b => b.id = x) :=
        List.mem_filter.mpr ⟨ha, by simpa using hid⟩
      cases hrec : recordsFor rs x with
      | nil =>
        rw [normalize_filter rs x hx, hrec] at hmem
        simp [normSpec] at hmem
      | cons r₀ rest =>
        have hf := normalize_filter rs x hx
        rw [hrec] at hf
        rw [hf] at hmem
        have ha2 : a = rest.foldl mergeArtist (mkArtist x r₀) := by
          simpa [normSpec] using hmem
        subst ha2
        rw [mem_genre_foldl] at hg
        rcases hg with hg | ⟨r', hr', hg⟩
        · have hr0 : r₀ ∈ recordsFor rs x := by rw [hrec]; simp
          rcases List.mem_filter.mp hr0 with ⟨h1, h2⟩
          exact ⟨r₀, h1, by simpa using h2, by simpa [mkArtist] using hg⟩
        · have hrm : r' ∈ recordsFor rs x := by rw [hrec]; simp [hr']
          rcases List.mem_filter.mp hrm with ⟨h1, h2⟩
          exact ⟨r', h1, by simpa using h2, hg⟩
    · rintro ⟨_, r, hr, hres, hg⟩
      have hrin : r ∈ recordsFor rs x := List.mem_filter.mpr ⟨hr, by simpa using hres⟩
      cases hrec : recordsFor rs x with
      | nil => rw [hrec] at hrin; simp at hrin
      | cons r₀ rest =>
        have hf := normalize_filter rs x hx
        rw [hrec] at hf
        have hA : (rest.foldl mergeArtist (mkArtist x r₀)) ∈
            (normalize rs).filter (fun b => b.id = x) := by
          rw [hf]
          simp [normSpec]
        rcases List.mem_filter.mp hA with ⟨h1, h2⟩
        refine ⟨_, h1, by simpa using h2, ?_⟩
        rw [mem_genre_foldl]
        rw [hrec] at hrin
        rcases List.mem_cons.mp hrin with rfl | hrin
        · exact Or.inl (by simpa [mkArtist] using hg)
        · exact Or.inr ⟨r, hrin, hg⟩

/-- Claim C3, counterexample: swapping the first two records (same id `"X"`,
different single genres) is a permutation of the input, yet it flips
which genre is `"X"`'s primary genre: one order yields one strong edge
(`X`–`Y` both primary `"house"`), the swapped order yields none, so the
edge sets are not permutation-invariant. -/
theorem c3_order_counterexample :
    List.Perm [recXHouse, recXTechno, recYHouse] [recXTechno, recXHouse, recYHouse] ∧
    (classify (normalize [recXHouse, recXTechno, recYHouse])).links.length = 1 ∧
    (classify (normalize [recXTechno, recXHouse, recYHouse])).links.length = 0 :=
  ⟨List.Perm.swap recXTechno recXHouse [recYHouse], by decide, by decide⟩

/-- Claim C3, amended: the pipeline is a pure function of the input record
sequence (determinism for a fixed order holds by construction, as the
main page has no random fallback id), and under any permutation of the
records the set of artist ids and each artist's genre membership are
preserved; but the strong/soft edge sets are NOT permutation-invariant,
because the merged genre order — hence the primary genre — depends on
the record order. -/
theorem c3_pipeline_invariance (rs₁ rs₂ : List RawRecord) (hp : rs₁.Perm rs₂) :
    (∀ x, (∃ a ∈ normalize rs₁, a.id = x) ↔ (∃ a ∈ normalize rs₂, a.id = x)) ∧
    (∀ x g, (∃ a ∈ normalize rs₁, a.id = x ∧ g ∈ a.genre) ↔
            (∃ a ∈ normalize rs₂, a.id = x ∧ g ∈ a.genre)) := by
  constructor
  · intro x
    rw [normalize_exists_id_iff, normalize_exists_id_iff]
    constructor
    · rintro ⟨h, r, hr, hres⟩
      exact ⟨h, r, hp.subset hr, hres⟩
    · rintro ⟨h, r, hr, hres⟩
      exact ⟨h, r, hp.symm.subset hr, hres⟩
  · intro x g
    rw [normalize_genre_mem_iff, normalize_genre_mem_iff]
    constructor
    · rintro ⟨h, r, hr, hres, hg⟩
      exact ⟨h, r, hp.subset hr, hres, hg⟩
    · rintro ⟨h, r, hr, hres, hg⟩
      exact ⟨h, r, hp.symm.subset hr, hres, hg⟩

/-- Witness for C3 (amended) on the three-record example. -/
theorem c3_pipeline_invariance_witness :
    List.Perm [recXHouse, recXTechno, recYHouse] [recXTechno, recXHouse, recYHouse] ∧
    (∀ x, (∃ a ∈ normalize [recXHouse, recXTechno, recYHouse], a.id = x) ↔
          (∃ a ∈ normalize [recXTechno, recXHouse, recYHouse], a.id = x)) :=
  ⟨List.Perm.swap recXTechno recXHouse [recYHouse],
   (c3_pipeline_invariance _ _ (List.Perm.swap recXTechno recXHouse [recYHouse])).1⟩

end Descubro
